import Mathlib

/-!
Shallow embedding of `src/idle_screen.tsx` (GradNetworkVis), a DNA
double-helix canvas animation.  Pure geometry is modelled over `ℝ`
(transcendental functions from the source become `Real.sin` / `Real.cos`),
stochastic draws from the ambient `Math.random()` are threaded as explicit
rational oracle parameters in `[0, 1)`, and the stateful parts (bond
dynamics, connection sets, the frame scheduler, lifecycle) become explicit
state-passing functions.  Rational numbers stand in for the source's
IEEE doubles wherever a claim requires evaluating comparisons.
-/

namespace IdleScreen

/-! ## Model constants (source lines 12-32) -/

def width : ℝ := 800
def height : ℝ := 600

noncomputable def ROTATION_PER_BP : ℝ := 34.3 * Real.pi / 180
def BP_PER_TURN : ℝ := 10.5
/-- RISE_PER_BP over `ℚ`: the longitudinal rise per index step (source: 8). -/
def RISE_PER_BP : ℚ := 8
def HELIX_DIAMETER : ℝ := 60
noncomputable def HELIX_RADIUS : ℝ := HELIX_DIAMETER / 2
noncomputable def INCLINATION : ℝ := -1.2 * Real.pi / 180
noncomputable def PROPELLER_TWIST : ℝ := 16 * Real.pi / 180

def numBasePairs : ℕ := 80
noncomputable def TWO_PI : ℝ := Real.pi * 2
def animationSpeed : ℝ := 0.01

/-! ## Baseline longitudinal offset

Both constructors compute `(bpIndex - numBasePairs / 2) * RISE_PER_BP`
(source lines 57 and 104); it is rational so we keep it in `ℚ`. -/

def baseYOf (bpIndex : ℕ) : ℚ :=
  ((bpIndex : ℚ) - (numBasePairs : ℚ) / 2) * RISE_PER_BP

/-! ## Bond dynamics (source lines 119-128)

`BasePair.update` first increments `reconnectionTimer`, then may break a
connected bond (draw `rBreak` compared against the type's stability) or
reconnect a broken one (incremented timer compared against the freshly
sampled threshold `random(30, 80) = rThresh * 50 + 30`). -/

structure BondState where
  isConnected : Bool
  reconnectionTimer : ℕ
  deriving DecidableEq, Repr

/-- Stability per base-pair type (source line 120): GC 0.98, AT 0.95. -/
def bondStability (typeGC : Bool) : ℚ := if typeGC then 0.98 else 0.95

def bondStep (typeGC : Bool) (s : BondState) (rBreak rThresh : ℚ) : BondState :=
  let reconnectionTimer := s.reconnectionTimer + 1
  if s.isConnected = true ∧ bondStability typeGC < rBreak then
    ⟨false, 0⟩
  else if s.isConnected = false ∧ rThresh * 50 + 30 < (reconnectionTimer : ℚ) then
    ⟨true, 0⟩
  else
    ⟨s.isConnected, reconnectionTimer⟩

/-- Iterate the bond dynamics over a list of `(rBreak, rThresh)` draw pairs,
one pair per `update` call. -/
def bondRun (typeGC : Bool) (s : BondState) : List (ℚ × ℚ) → BondState
  | [] => s
  | r :: rs => bondRun typeGC (bondStep typeGC s r.1 r.2) rs

/-- Every modelled draw must lie in `Math.random()`'s range `[0, 1)`. -/
def validDraws (rs : List (ℚ × ℚ)) : Bool :=
  rs.all fun r =>
    decide (0 ≤ r.1) && decide (r.1 < 1) && decide (0 ≤ r.2) && decide (r.2 < 1)

/-! ## Backbone particles (source lines 53-99)

The constructor fixes `bpIndex`, `strand`, `baseY` and six random
parameters (`random(a, b) = a + r * (b - a)` with `r` the raw draw).
The per-particle connection `Set` of source line 64 lives in the frame
state (`SimState.conns`), since it is rebuilt by the per-frame link pass. -/

structure BackboneParticle where
  bpIndex : ℕ
  strand : ℕ
  baseY : ℚ
  size : ℝ
  opacity : ℝ
  entropy : ℝ
  phaseNoise : ℝ
  radiusNoise : ℝ
  yNoise : ℝ

noncomputable def mkBackboneParticle (bpIndex strand : ℕ) (r : ℕ → ℚ) :
    BackboneParticle where
  bpIndex := bpIndex
  strand := strand
  baseY := baseYOf bpIndex
  size := 2 + (r 0 : ℝ) * 2
  opacity := 160 + (r 1 : ℝ) * 40
  entropy := 0.8 + (r 2 : ℝ) * 0.4
  phaseNoise := (r 3 : ℝ) * TWO_PI
  radiusNoise := 0.85 + (r 4 : ℝ) * 0.3
  yNoise := -2 + (r 5 : ℝ) * 4

/-- Angular argument of a backbone particle (source lines 69-73):
`bpIndex * ROTATION_PER_BP + time * animationSpeed * entropy`, plus the
strand phase (0 for strand 1, π otherwise), plus `phaseNoise * 0.1`. -/
noncomputable def totalRotation (p : BackboneParticle) (time : ℝ) : ℝ :=
  let rotation := (p.bpIndex : ℝ) * ROTATION_PER_BP + time * animationSpeed * p.entropy
  let strandPhase : ℝ := if p.strand = 1 then 0 else Real.pi
  rotation + strandPhase + p.phaseNoise * 0.1

/-- Ephemeral per-frame point returned by `BackboneParticle.update`
(source lines 86-97); the aliased `connections` set is omitted here and
tracked in `SimState.conns`. -/
structure BackbonePoint where
  x : ℝ
  y : ℝ
  z : ℝ
  size : ℝ
  opacity : ℝ
  strand : ℕ
  bpIndex : ℕ
  rotation : ℝ
  entropy : ℝ

instance : Inhabited BackbonePoint := ⟨⟨0, 0, 0, 0, 0, 0, 0, 0, 0⟩⟩

/-- `BackboneParticle.update` (source lines 67-98): pure geometry from the
particle's fixed fields and the shared time counter. -/
noncomputable def backboneUpdate (p : BackboneParticle) (time : ℝ) : BackbonePoint :=
  let tot := totalRotation p time
  let breathingRadius :=
    HELIX_RADIUS * p.radiusNoise * (1 + Real.sin (time * 0.03 + p.phaseNoise) * 0.1)
  let x := width / 2 + Real.cos tot * breathingRadius
  let y := height / 2 + (p.baseY : ℝ) + p.yNoise + Real.sin (time * 0.02 + p.phaseNoise) * 3
  let z := Real.sin tot * breathingRadius
  let inclinedY := y + Real.sin tot * Real.sin INCLINATION * 5
  ⟨x, inclinedY, z, p.size, p.opacity, p.strand, p.bpIndex, tot, p.entropy⟩

/-! ## Base pairs (source lines 101-154) -/

structure BasePairConst where
  bpIndex : ℕ
  baseY : ℚ
  size : ℝ
  opacity : ℝ
  typeGC : Bool
  strength : ℝ
  bondPhase : ℝ

noncomputable def mkBasePair (bpIndex : ℕ) (r : ℕ → ℚ) : BasePairConst where
  bpIndex := bpIndex
  baseY := baseYOf bpIndex
  size := 3 + (r 0 : ℝ) * 2
  opacity := 120 + (r 1 : ℝ) * 40
  typeGC := decide ((0.6 : ℚ) < r 2)
  strength := if (0.6 : ℚ) < r 2 then 0.7 + (r 3 : ℝ) * 0.3 else 0.4 + (r 3 : ℝ) * 0.4
  bondPhase := (r 4 : ℝ) * TWO_PI

/-- Ephemeral per-frame record returned by `BasePair.update` (source lines
143-152).  The source object literal writes the key `y` twice, so the
second binding `y + propellerOffset` is the one the renderer observes. -/
structure BasePairOut where
  x1 : ℝ
  y : ℝ
  z1 : ℝ
  x2 : ℝ
  z2 : ℝ
  size : ℝ
  opacity : ℝ
  typeGC : Bool
  bpIndex : ℕ
  strength : ℝ
  isConnected : Bool

/-- `BasePair.update` (source lines 115-153): returns the per-frame record
and the mutated bond state.  The two random draws stand for the
`random()` and `random(30, 80)` calls of the bond dynamics. -/
noncomputable def basePairUpdate (c : BasePairConst) (s : BondState) (time : ℝ)
    (rBreak rThresh : ℚ) : BasePairOut × BondState :=
  let rotation := (c.bpIndex : ℝ) * ROTATION_PER_BP + time * animationSpeed
  let s2 := bondStep c.typeGC s rBreak rThresh
  let bondFluctuation := Real.sin (time * 0.05 + c.bondPhase) * 0.1 + 1
  let x1 := width / 2 + Real.cos rotation * HELIX_RADIUS
  let x2 := width / 2 + Real.cos (rotation + Real.pi) * HELIX_RADIUS
  let y := height / 2 + (c.baseY : ℝ)
  let z1 := Real.sin rotation * HELIX_RADIUS
  let z2 := Real.sin (rotation + Real.pi) * HELIX_RADIUS
  let propellerOffset := Real.sin PROPELLER_TWIST * 3 * bondFluctuation
  (⟨x1, y + propellerOffset, z1, x2, z2, c.size, c.opacity, c.typeGC, c.bpIndex,
    c.strength * bondFluctuation, s2.isConnected⟩, s2)

/-! ## Frame scheduler (source lines 163-178)

`animate` keeps `lastFrameTime` (0 meaning uninitialised, via a JS falsy
check), and on each host callback either initialises it, runs one logical
frame and advances `lastFrameTime` by `deltaTime - (deltaTime mod
frameInterval)`, or skips.  `frames` counts logical frames run. -/

def frameInterval : ℚ := 1000 / 30

structure SchedState where
  lastFrameTime : ℚ
  frames : ℕ
  deriving DecidableEq, Repr

def schedStep (s : SchedState) (currentTime : ℚ) : SchedState :=
  if s.lastFrameTime = 0 then
    ⟨currentTime, s.frames⟩
  else
    let deltaTime := currentTime - s.lastFrameTime
    if frameInterval ≤ deltaTime then
      let remainder := deltaTime - frameInterval * (⌊deltaTime / frameInterval⌋ : ℤ)
      ⟨currentTime - remainder, s.frames + 1⟩
    else
      s

/-- Run the scheduler over a list of host callback timestamps. -/
def schedRun (ts : List ℚ) : SchedState := ts.foldl schedStep ⟨0, 0⟩

/-- Check that after every processed callback, the elapsed time not yet
consumed (`currentTime - lastFrameTime`) stays below one target interval. -/
def remainderOkFrom (s : SchedState) : List ℚ → Bool
  | [] => true
  | t :: ts =>
    decide (t - (schedStep s t).lastFrameTime < frameInterval) &&
      remainderOkFrom (schedStep s t) ts

/-- Successive timestamps increase, with gaps below the target interval. -/
def gapsOk (p : ℚ) : List ℚ → Bool
  | [] => true
  | t :: ts => decide (p < t) && decide (t < p + frameInterval) && gapsOk t ts

/-! ## Helpers of the render loop (source lines 42-51) -/

/-- Linear interpolation helper (source `map`, lines 42-44). -/
noncomputable def map (value start1 stop1 start2 stop2 : ℝ) : ℝ :=
  start2 + (stop2 - start2) * ((value - start1) / (stop1 - start1))

/-- Euclidean distance in 3D (source `dist`, lines 46-51). -/
noncomputable def dist3 (x1 y1 z1 x2 y2 z2 : ℝ) : ℝ :=
  Real.sqrt ((x2 - x1) * (x2 - x1) + (y2 - y1) * (y2 - y1) + (z2 - z1) * (z2 - z1))

/-! ## Short-range link pass (source lines 197-218)

The pass iterates over ordered index pairs `i < j` of the depth-sorted
point array; when the gate (distance below 80 and a random draw above 0.7)
fires it draws a line and records `j` in point `i`'s connection set and
`i` in point `j`'s.  Connection sets are modelled as `ℕ → Finset ℕ`,
cleared to `∅` before the pass (source lines 193-195). -/

/-- Ordered index pairs `(i, j)` with `i < j < n`, in loop order. -/
def allPairs (n : ℕ) : List (ℕ × ℕ) :=
  (List.range n).flatMap fun i => ((List.range n).drop (i + 1)).map fun j => (i, j)

/-- The gate of source line 206: distance below 80 and draw above 0.7. -/
noncomputable def linkGate (ps : List BackbonePoint) (r : ℕ → ℕ → ℚ) (i j : ℕ) : Prop :=
  let p1 := ps.getD i default
  let p2 := ps.getD j default
  dist3 p1.x p1.y p1.z p2.x p2.y p2.z < 80 ∧ (0.7 : ℚ) < r i j

/-- Record a mutual connection (source lines 214-215). -/
def addLink (c : ℕ → Finset ℕ) (i j : ℕ) : ℕ → Finset ℕ := fun k =>
  if k = i then insert j (c k) else if k = j then insert i (c k) else c k

open Classical in
noncomputable def linkStep (ps : List BackbonePoint) (r : ℕ → ℕ → ℚ)
    (c : ℕ → Finset ℕ) (ij : ℕ × ℕ) : ℕ → Finset ℕ :=
  if linkGate ps r ij.1 ij.2 then addLink c ij.1 ij.2 else c

/-- The whole pass, starting from the cleared connection sets. -/
noncomputable def linkPass (ps : List BackbonePoint) (r : ℕ → ℕ → ℚ) : ℕ → Finset ℕ :=
  (allPairs ps.length).foldl (linkStep ps r) fun _ => (∅ : Finset ℕ)

/-! ## Base-pair render pass (source lines 220-248) -/

inductive DrawCmd where
  | line (x1 y1 x2 y2 : ℝ) (r g b : ℕ) (alpha : ℝ)
  | disk (x y radius : ℝ) (r g b : ℕ) (alpha : ℝ)

def isLineCmd : DrawCmd → Bool
  | .line .. => true
  | .disk .. => false

def isDiskCmd : DrawCmd → Bool
  | .line .. => false
  | .disk .. => true

/-- Drawing commands emitted for one base pair: the hydrogen-bond line only
when `isConnected`, then the two base disks unconditionally. -/
noncomputable def basePairDraw (bp : BasePairOut) : List DrawCmd :=
  let bondPart : List DrawCmd :=
    if bp.isConnected then
      let depthFactor := map (min bp.z1 bp.z2) (-HELIX_RADIUS) HELIX_RADIUS 0.3 1
      let opacity := bp.opacity / 255 * depthFactor * bp.strength
      [.line bp.x1 bp.y bp.x2 bp.y 80 40 120 opacity]
    else []
  let baseSize := bp.size * map (min bp.z1 bp.z2) (-HELIX_RADIUS) HELIX_RADIUS 0.8 1.3
  let baseOpacity := bp.opacity / 255 * map (min bp.z1 bp.z2) (-HELIX_RADIUS) HELIX_RADIUS 0.4 1
  let cr : ℕ := if bp.typeGC then 120 else 60
  let cg : ℕ := if bp.typeGC then 60 else 120
  bondPart ++
    [.disk bp.x1 bp.y (baseSize / 2) cr cg 40 baseOpacity,
     .disk bp.x2 bp.y (baseSize / 2) cr cg 40 baseOpacity]

/-! ## Whole-simulation state and one frame step (source lines 156-218) -/

open Classical in
/-- Insertion into a z-ascending list (models the `sort((a, b) => a.z - b.z)`
of source line 191). -/
noncomputable def insertByZ (p : BackbonePoint) : List BackbonePoint → List BackbonePoint
  | [] => [p]
  | q :: qs => if p.z ≤ q.z then p :: q :: qs else q :: insertByZ p qs

noncomputable def sortByZ : List BackbonePoint → List BackbonePoint
  | [] => []
  | p :: ps => insertByZ p (sortByZ ps)

structure SimState where
  backbone1 : List BackboneParticle
  backbone2 : List BackboneParticle
  basePairs : List BasePairConst
  bonds : List BondState
  time : ℕ
  conns : ℕ → Finset ℕ

/-- Initialisation loop (source lines 156-161): 80 particles per strand and
80 base pairs, indexed `0..79`, with per-entity draw oracles; every bond
starts connected with timer 0. -/
noncomputable def initState (d1 d2 d3 : ℕ → ℕ → ℚ) : SimState where
  backbone1 := (List.range numBasePairs).map fun i => mkBackboneParticle i 1 (d1 i)
  backbone2 := (List.range numBasePairs).map fun i => mkBackboneParticle i 2 (d2 i)
  basePairs := (List.range numBasePairs).map fun i => mkBasePair i (d3 i)
  bonds := List.replicate numBasePairs ⟨true, 0⟩
  time := 0
  conns := fun _ => (∅ : Finset ℕ)

/-- One logical frame (source lines 183-218): advance the time counter,
update every entity, depth-sort the backbone points, clear the connection
sets and rebuild them with the link pass.  Entity lists pass through
untouched — the loop never adds, removes or re-indexes entities. -/
noncomputable def frameStep (st : SimState) (bondDraws : ℕ → ℚ × ℚ)
    (linkDraws : ℕ → ℕ → ℚ) : SimState :=
  let t := st.time + 1
  let pts1 := st.backbone1.map fun p => backboneUpdate p (t : ℝ)
  let pts2 := st.backbone2.map fun p => backboneUpdate p (t : ℝ)
  let allPoints := sortByZ (pts1 ++ pts2)
  { backbone1 := st.backbone1
    backbone2 := st.backbone2
    basePairs := st.basePairs
    bonds := (st.basePairs.zip st.bonds).enum.map fun e =>
      bondStep e.2.1.typeGC e.2.2 (bondDraws e.1).1 (bondDraws e.1).2
    time := t
    conns := linkPass allPoints linkDraws }

/-! ## Mount guard and teardown (source lines 7-11 and 313-321)

The host surface is abstracted to: a pool of pending callback handles, a
flag for having acquired the 2D context, and a flag for the surface having
been cleared.  `setupEffect` models the `useEffect` body up to the first
`requestAnimationFrame`; `cleanupEffect` models the returned teardown.
Both are total functions: no operation can raise. -/

structure HostState where
  nextHandle : ℕ
  pending : Finset ℕ
  contextAcquired : Bool
  surfaceCleared : Bool

def requestAnimationFrame (h : HostState) : HostState × ℕ :=
  ({ h with nextHandle := h.nextHandle + 1, pending := insert h.nextHandle h.pending },
   h.nextHandle)

def cancelAnimationFrame (h : HostState) (id : ℕ) : HostState :=
  { h with pending := h.pending.erase id }

/-- Mount (source lines 7-11, 311): with no canvas, return early touching
nothing; otherwise acquire the context and schedule the first callback,
storing its handle in `animationFrameRef`. -/
def setupEffect (canvasPresent : Bool) (h : HostState) : HostState × Option ℕ :=
  if canvasPresent then
    let h1 := { h with contextAcquired := true }
    let p := requestAnimationFrame h1
    (p.1, some p.2)
  else
    (h, none)

/-- Teardown (source lines 313-321): cancel the pending handle if any and
null the ref, then clear the surface when canvas and context exist. -/
def cleanupEffect (canvasAndCtx : Bool) (ref : Option ℕ) (h : HostState) :
    HostState × Option ℕ :=
  let step1 : HostState × Option ℕ :=
    match ref with
    | some id => (cancelAnimationFrame h id, none)
    | none => (h, none)
  let h2 := if canvasAndCtx then { step1.1 with surfaceCleared := true } else step1.1
  (h2, step1.2)

/-! # Theorems -/

/-- A connected bond breaks exactly when the break draw exceeds the type's
stability, resetting the reconnection timer (source lines 122-124). -/
theorem bondStep_breaks (typeGC : Bool) (s : BondState) (r1 r2 : ℚ)
    (hcon : s.isConnected = true) (hbr : bondStability typeGC < r1) :
    bondStep typeGC s r1 r2 = ⟨false, 0⟩ := by
  unfold bondStep
  rw [if_pos ⟨hcon, hbr⟩]

/-- A broken bond reconnects when the incremented timer exceeds the freshly
sampled threshold (source lines 125-127). -/
theorem bondStep_brokenFire (typeGC : Bool) (j : ℕ) (r1 r2 : ℚ)
    (hf : r2 * 50 + 30 < ((j + 1 : ℕ) : ℚ)) :
    bondStep typeGC ⟨false, j⟩ r1 r2 = ⟨true, 0⟩ := by
  unfold bondStep
  dsimp only
  rw [if_neg (fun h => Bool.noConfusion h.1), if_pos ⟨rfl, hf⟩]

/-- A broken bond below the threshold stays broken with its timer bumped. -/
theorem bondStep_brokenStay (typeGC : Bool) (j : ℕ) (r1 r2 : ℚ)
    (hnf : ¬ r2 * 50 + 30 < ((j + 1 : ℕ) : ℚ)) :
    bondStep typeGC ⟨false, j⟩ r1 r2 = ⟨false, j + 1⟩ := by
  unfold bondStep
  dsimp only
  rw [if_neg (fun h => Bool.noConfusion h.1), if_neg (fun h => hnf h.2)]

/-- C2 (amended): the baseline offset is strictly increasing in the index,
and symmetric about the centre sample in the shifted form
`baseYOf i = -baseYOf (numBasePairs - i)` for `1 ≤ i ≤ numBasePairs - 1`
(exact antisymmetry under `i ↦ N - 1 - i` fails; see the counterexample). -/
theorem baseY_monotone_symm :
    (∀ i j : ℕ, i < j → baseYOf i < baseYOf j)
    ∧ (∀ i : ℕ, 1 ≤ i → i ≤ numBasePairs - 1 →
        baseYOf i = -baseYOf (numBasePairs - i)) := by
  constructor
  · intro i j hij
    have h : (i : ℚ) < (j : ℚ) := by exact_mod_cast hij
    simp only [baseYOf, numBasePairs, RISE_PER_BP]
    push_cast
    linarith
  · intro i h1 h2
    simp only [numBasePairs] at h2
    have hle : i ≤ 80 := by omega
    simp only [baseYOf, numBasePairs, RISE_PER_BP]
    rw [Nat.cast_sub hle]
    push_cast
    ring

/-- Witness for C2 at the concrete indices 3 < 5 and i = 10. -/
theorem baseY_monotone_symm_witness :
    (3 < 5 ∧ baseYOf 3 < baseYOf 5)
    ∧ (1 ≤ 10 ∧ 10 ≤ numBasePairs - 1
        ∧ baseYOf 10 = -baseYOf (numBasePairs - 10)) :=
  ⟨⟨by norm_num, baseY_monotone_symm.1 3 5 (by norm_num)⟩,
   ⟨by norm_num, by decide, baseY_monotone_symm.2 10 (by norm_num) (by decide)⟩⟩

/-- Counterexample for C2 as stated: at `i = 0`, `baseYOf 0 = -320` but
`-baseYOf (numBasePairs - 1 - 0) = -312`, so the claimed symmetry
`baseY(i) = -baseY(N - 1 - i)` fails. -/
theorem baseY_symm_cex : ¬ baseYOf 0 = -baseYOf (numBasePairs - 1 - 0) := by
  norm_num [baseYOf, numBasePairs, RISE_PER_BP]

/-- C5: with index, entropy and phase noise of the two particles held equal,
the angular argument of the strand-2 particle equals the strand-1
particle's angular argument plus exactly π, at every time. -/
theorem strand_phase_pi (p q : BackboneParticle) (t : ℝ)
    (hidx : q.bpIndex = p.bpIndex) (hp1 : p.strand = 1) (hq2 : q.strand = 2)
    (he : q.entropy = p.entropy) (hph : q.phaseNoise = p.phaseNoise) :
    totalRotation q t = totalRotation p t + Real.pi := by
  simp only [totalRotation, hidx, hp1, hq2, he, hph]
  norm_num
  ring

/-- Witness for C5 at concrete particles with index 3 and zeroed noise. -/
theorem strand_phase_pi_witness :
    ((⟨3, 2, baseYOf 3, 2, 160, 0, 0, 1, 0⟩ : BackboneParticle).bpIndex
        = (⟨3, 1, baseYOf 3, 2, 160, 0, 0, 1, 0⟩ : BackboneParticle).bpIndex
      ∧ (⟨3, 1, baseYOf 3, 2, 160, 0, 0, 1, 0⟩ : BackboneParticle).strand = 1
      ∧ (⟨3, 2, baseYOf 3, 2, 160, 0, 0, 1, 0⟩ : BackboneParticle).strand = 2
      ∧ (⟨3, 2, baseYOf 3, 2, 160, 0, 0, 1, 0⟩ : BackboneParticle).entropy
        = (⟨3, 1, baseYOf 3, 2, 160, 0, 0, 1, 0⟩ : BackboneParticle).entropy
      ∧ (⟨3, 2, baseYOf 3, 2, 160, 0, 0, 1, 0⟩ : BackboneParticle).phaseNoise
        = (⟨3, 1, baseYOf 3, 2, 160, 0, 0, 1, 0⟩ : BackboneParticle).phaseNoise)
    ∧ totalRotation (⟨3, 2, baseYOf 3, 2, 160, 0, 0, 1, 0⟩ : BackboneParticle) 5
      = totalRotation (⟨3, 1, baseYOf 3, 2, 160, 0, 0, 1, 0⟩ : BackboneParticle) 5
        + Real.pi :=
  ⟨⟨rfl, rfl, rfl, rfl, rfl⟩,
   strand_phase_pi (⟨3, 1, baseYOf 3, 2, 160, 0, 0, 1, 0⟩ : BackboneParticle)
     (⟨3, 2, baseYOf 3, 2, 160, 0, 0, 1, 0⟩ : BackboneParticle) 5 rfl rfl rfl rfl rfl⟩

/-- C1 (amended): all positional and geometric output fields of
`BasePair.update` depend only on the entity's fixed fields and the time,
so two successive calls at the same (entity, time) agree on every one of
them — the update's extra side effect is confined to the bond state
(`isConnected`, `reconnectionTimer`), which the original claim missed;
the connection sets are mutated only by the link pass and cleared before it. -/
theorem update_positions_pure (c : BasePairConst) (s : BondState) (t : ℝ)
    (r1 r2 r1' r2' : ℚ) :
    let first := basePairUpdate c s t r1 r2
    let second := basePairUpdate c first.2 t r1' r2'
    second.1.x1 = first.1.x1 ∧ second.1.y = first.1.y ∧ second.1.z1 = first.1.z1
    ∧ second.1.x2 = first.1.x2 ∧ second.1.z2 = first.1.z2
    ∧ second.1.size = first.1.size ∧ second.1.opacity = first.1.opacity
    ∧ second.1.strength = first.1.strength :=
  ⟨rfl, rfl, rfl, rfl, rfl, rfl, rfl, rfl⟩

/-- Counterexample for C1 as stated: with identical (entity, time) inputs —
and even identical random draws — two successive `BasePair.update` calls
return different `isConnected` values (the first call reconnects the
broken bond, the second breaks it again), because the call mutates the
pair's bond state. -/
theorem update_twice_diff_cex :
    ((basePairUpdate ⟨0, baseYOf 0, 3, 120, true, 0.7, 0⟩ ⟨false, 41⟩ 1
        (99 / 100) (1 / 5)).1.isConnected = true)
    ∧ ((basePairUpdate ⟨0, baseYOf 0, 3, 120, true, 0.7, 0⟩
        (basePairUpdate ⟨0, baseYOf 0, 3, 120, true, 0.7, 0⟩ ⟨false, 41⟩ 1
          (99 / 100) (1 / 5)).2 1
        (99 / 100) (1 / 5)).1.isConnected = false) := by
  have h1 : bondStep true ⟨false, 41⟩ (99 / 100) (1 / 5) = ⟨true, 0⟩ :=
    bondStep_brokenFire true 41 (99 / 100) (1 / 5) (by push_cast; norm_num)
  have h2 : bondStep true ⟨true, 0⟩ (99 / 100) (1 / 5) = ⟨false, 0⟩ :=
    bondStep_breaks true ⟨true, 0⟩ (99 / 100) (1 / 5) rfl
      (by norm_num [bondStability])
  have e1 : (basePairUpdate ⟨0, baseYOf 0, 3, 120, true, 0.7, 0⟩ ⟨false, 41⟩ 1
      (99 / 100) (1 / 5)).1.isConnected
      = (bondStep true ⟨false, 41⟩ (99 / 100) (1 / 5)).isConnected := rfl
  have e2 : (basePairUpdate ⟨0, baseYOf 0, 3, 120, true, 0.7, 0⟩ ⟨false, 41⟩ 1
      (99 / 100) (1 / 5)).2 = bondStep true ⟨false, 41⟩ (99 / 100) (1 / 5) := rfl
  refine ⟨by rw [e1, h1], ?_⟩
  rw [e2, h1]
  have e3 : (basePairUpdate ⟨0, baseYOf 0, 3, 120, true, 0.7, 0⟩ ⟨true, 0⟩ 1
      (99 / 100) (1 / 5)).1.isConnected
      = (bondStep true ⟨true, 0⟩ (99 / 100) (1 / 5)).isConnected := rfl
  rw [e3, h2]

/-- C6: in the base-pair render pass, a hydrogen-bond line is emitted if
and only if the pair's `isConnected` flag is true, exactly two base disks
are always emitted, and the emitted disks are identical whatever the
connection state. -/
theorem basePair_draw_iff_connected (bp : BasePairOut) :
    ((basePairDraw bp).any isLineCmd = bp.isConnected)
    ∧ ((basePairDraw bp).filter isDiskCmd).length = 2
    ∧ (basePairDraw { bp with isConnected := true }).filter isDiskCmd
        = (basePairDraw { bp with isConnected := false }).filter isDiskCmd := by
  refine ⟨?_, ?_, ?_⟩
  · cases h : bp.isConnected <;> simp [basePairDraw, isLineCmd, isDiskCmd, h]
  · cases h : bp.isConnected <;> simp [basePairDraw, isLineCmd, isDiskCmd, h]
  · simp [basePairDraw, isLineCmd, isDiskCmd]

/-- C7: initialisation creates exactly 2 × 80 backbone particles and 80
base pairs, indexed 0..79 with fixed strand ids, and the per-frame step
passes every entity list through unchanged (no addition, removal or
re-indexing), evolving only bonds, time and connection sets. -/
theorem entity_counts_fixed (d1 d2 d3 : ℕ → ℕ → ℚ) (st : SimState)
    (bd : ℕ → ℚ × ℚ) (ld : ℕ → ℕ → ℚ) :
    (initState d1 d2 d3).backbone1.length + (initState d1 d2 d3).backbone2.length
        = 2 * numBasePairs
    ∧ (initState d1 d2 d3).basePairs.length = numBasePairs
    ∧ (initState d1 d2 d3).backbone1.map BackboneParticle.bpIndex
        = List.range numBasePairs
    ∧ (initState d1 d2 d3).backbone2.map BackboneParticle.bpIndex
        = List.range numBasePairs
    ∧ (initState d1 d2 d3).basePairs.map BasePairConst.bpIndex
        = List.range numBasePairs
    ∧ (initState d1 d2 d3).backbone1.map BackboneParticle.strand
        = List.replicate numBasePairs 1
    ∧ (initState d1 d2 d3).backbone2.map BackboneParticle.strand
        = List.replicate numBasePairs 2
    ∧ (frameStep st bd ld).backbone1 = st.backbone1
    ∧ (frameStep st bd ld).backbone2 = st.backbone2
    ∧ (frameStep st bd ld).basePairs = st.basePairs
    ∧ (frameStep st bd ld).bonds.length = min st.basePairs.length st.bonds.length := by
  refine ⟨?_, ?_, ?_, ?_, ?_, ?_, ?_, rfl, rfl, rfl, ?_⟩
  · simp [initState, two_mul]
  · simp [initState]
  · simp [initState, mkBackboneParticle, List.map_map, Function.comp_def]
  · simp [initState, mkBackboneParticle, List.map_map, Function.comp_def]
  · simp [initState, mkBasePair, List.map_map, Function.comp_def]
  · simp [initState, mkBackboneParticle, List.map_map, Function.comp_def,
      List.map_const', List.length_range]
  · simp [initState, mkBackboneParticle, List.map_map, Function.comp_def,
      List.map_const', List.length_range]
  · simp [frameStep, List.length_map, List.enum_length, List.length_zip]

/-- C8: with no canvas at mount, the effect does nothing — the host state
is untouched and no callback handle is stored; and running teardown right
after a mount with a canvas (before any frame) cancels the one scheduled
callback (pending set returns to its pre-mount value), nulls the ref and
clears the surface.  Both paths are total functions, so neither raises. -/
theorem mount_guard_and_cleanup (h : HostState) (hfresh : h.nextHandle ∉ h.pending) :
    setupEffect false h = (h, none)
    ∧ (cleanupEffect true (setupEffect true h).2 (setupEffect true h).1).1.pending
        = h.pending
    ∧ (cleanupEffect true (setupEffect true h).2 (setupEffect true h).1).2 = none
    ∧ (cleanupEffect true (setupEffect true h).2 (setupEffect true h).1).1.surfaceCleared
        = true := by
  refine ⟨rfl, ?_, rfl, rfl⟩
  simp [setupEffect, cleanupEffect, requestAnimationFrame, cancelAnimationFrame,
    Finset.erase_insert hfresh]

/-- Witness for C8 at the pristine host state. -/
theorem mount_guard_and_cleanup_witness :
    ((⟨0, ∅, false, false⟩ : HostState).nextHandle
        ∉ (⟨0, ∅, false, false⟩ : HostState).pending)
    ∧ (setupEffect false ⟨0, ∅, false, false⟩ = (⟨0, ∅, false, false⟩, none)
      ∧ (cleanupEffect true (setupEffect true ⟨0, ∅, false, false⟩).2
          (setupEffect true ⟨0, ∅, false, false⟩).1).1.pending
          = (⟨0, ∅, false, false⟩ : HostState).pending
      ∧ (cleanupEffect true (setupEffect true ⟨0, ∅, false, false⟩).2
          (setupEffect true ⟨0, ∅, false, false⟩).1).2 = none
      ∧ (cleanupEffect true (setupEffect true ⟨0, ∅, false, false⟩).2
          (setupEffect true ⟨0, ∅, false, false⟩).1).1.surfaceCleared = true) :=
  ⟨by decide, mount_guard_and_cleanup ⟨0, ∅, false, false⟩ (by decide)⟩

/-- Unpacking of `validDraws` over a cons cell. -/
theorem validDraws_cons {r : ℚ × ℚ} {rs : List (ℚ × ℚ)}
    (h : validDraws (r :: rs) = true) :
    (0 ≤ r.1 ∧ r.1 < 1 ∧ 0 ≤ r.2 ∧ r.2 < 1) ∧ validDraws rs = true := by
  simp only [validDraws, List.all_cons, Bool.and_eq_true, decide_eq_true_eq] at h ⊢
  tauto

/-- While the timer (with its pending increment) cannot exceed the minimum
threshold 30, a broken bond stays broken and the timer counts the updates. -/
theorem bond_stays (typeGC : Bool) :
    ∀ (rs : List (ℚ × ℚ)) (j : ℕ), validDraws rs = true → j + rs.length ≤ 30 →
      bondRun typeGC ⟨false, j⟩ rs = ⟨false, j + rs.length⟩ := by
  intro rs
  induction rs with
  | nil => intro j _ _; simp [bondRun]
  | cons r rs ih =>
    intro j hv hlen
    obtain ⟨⟨h1, h2, h3, h4⟩, hv'⟩ := validDraws_cons hv
    simp only [List.length_cons] at hlen
    have hstep : bondStep typeGC ⟨false, j⟩ r.1 r.2 = ⟨false, j + 1⟩ := by
      refine bondStep_brokenStay typeGC j r.1 r.2 ?_
      intro hgt
      push_cast at hgt
      have hj : (j : ℚ) + 1 ≤ 30 := by exact_mod_cast (by omega : j + 1 ≤ 30)
      have h50 : (0 : ℚ) ≤ r.2 * 50 := mul_nonneg h3 (by norm_num)
      linarith
    rw [bondRun, hstep, ih (j + 1) hv' (by omega)]
    simp only [List.length_cons]
    congr 1
    omega

/-- C4: once a bond breaks, the reconnection counter restarts at 0 and
counts the subsequent updates one by one, and the bond stays broken for
at least 30 further update calls, since the incremented timer can never
exceed a threshold sampled from `random(30, 80)` before then. -/
theorem bond_min_dwell (typeGC : Bool) (rs : List (ℚ × ℚ))
    (hv : validDraws rs = true) (hlen : rs.length ≤ 30) :
    bondRun typeGC ⟨false, 0⟩ rs = ⟨false, rs.length⟩
    ∧ (∀ (s : BondState) (r1 r2 : ℚ), s.isConnected = true →
        bondStability typeGC < r1 → bondStep typeGC s r1 r2 = ⟨false, 0⟩) := by
  constructor
  · have h := bond_stays typeGC rs 0 hv (by omega)
    simpa using h
  · intro s r1 r2 hcon hbr
    exact bondStep_breaks typeGC s r1 r2 hcon hbr

/-- Witness for C4: thirty updates with draws pinned to 0 keep a freshly
broken AT-type bond broken, with the timer counting up to 30. -/
theorem bond_min_dwell_witness :
    validDraws (List.replicate 30 ((0 : ℚ), (0 : ℚ))) = true
    ∧ (List.replicate 30 ((0 : ℚ), (0 : ℚ))).length ≤ 30
    ∧ (bondRun false ⟨false, 0⟩ (List.replicate 30 ((0 : ℚ), (0 : ℚ)))
          = ⟨false, (List.replicate 30 ((0 : ℚ), (0 : ℚ))).length⟩
      ∧ (∀ (s : BondState) (r1 r2 : ℚ), s.isConnected = true →
          bondStability false < r1 → bondStep false s r1 r2 = ⟨false, 0⟩)) :=
  ⟨by decide, by decide,
    bond_min_dwell false (List.replicate 30 ((0 : ℚ), (0 : ℚ))) (by decide) (by decide)⟩

/-- From a broken state with timer `j ≤ 79`, enough valid draws force a
reconnection: the sampled threshold `r * 50 + 30` is always below 80, so
by the time the incremented timer reaches 80 the condition must fire. -/
theorem bond_fires (typeGC : Bool) :
    ∀ (rs : List (ℚ × ℚ)) (j : ℕ), validDraws rs = true → j ≤ 79 →
      80 ≤ j + rs.length →
      ∃ k, k ≤ rs.length ∧ (bondRun typeGC ⟨false, j⟩ (rs.take k)).isConnected = true := by
  intro rs
  induction rs with
  | nil => intro j _ hj h80; exfalso; simp at h80; omega
  | cons r rs ih =>
    intro j hv hj h80
    obtain ⟨⟨h1, h2, h3, h4⟩, hv'⟩ := validDraws_cons hv
    simp only [List.length_cons] at h80
    by_cases hfire : r.2 * 50 + 30 < ((j + 1 : ℕ) : ℚ)
    · refine ⟨1, by simp, ?_⟩
      have hstep := bondStep_brokenFire typeGC j r.1 r.2 hfire
      simp [bondRun, hstep]
    · have hstep := bondStep_brokenStay typeGC j r.1 r.2 hfire
      have hj1 : j + 1 ≤ 79 := by
        have hle : ((j + 1 : ℕ) : ℚ) ≤ r.2 * 50 + 30 := not_lt.mp hfire
        have h80q : r.2 * 50 + 30 < 80 := by nlinarith
        have hq : ((j + 1 : ℕ) : ℚ) < 80 := lt_of_le_of_lt hle h80q
        have hn : j + 1 < 80 := by exact_mod_cast hq
        omega
      obtain ⟨k, hk, hconn⟩ := ih (j + 1) hv' hj1 (by omega)
      refine ⟨k + 1, by simp only [List.length_cons]; omega, ?_⟩
      rw [List.take_succ_cons, bondRun, hstep]
      exact hconn

/-- C10: once broken, a bond reconnects within at most 80 subsequent
update calls, whatever the (valid) draw sequence. -/
theorem bond_reconnect_within_80 (typeGC : Bool) (rs : List (ℚ × ℚ))
    (hv : validDraws rs = true) (hlen : rs.length = 80) :
    ∃ k, k ≤ 80 ∧ (bondRun typeGC ⟨false, 0⟩ (rs.take k)).isConnected = true := by
  obtain ⟨k, hk, hc⟩ := bond_fires typeGC rs 0 hv (by omega) (by omega)
  exact ⟨k, by omega, hc⟩

/-- Witness for C10: eighty updates with draws pinned to 0 reconnect a
freshly broken GC-type bond within 80 calls. -/
theorem bond_reconnect_within_80_witness :
    validDraws (List.replicate 80 ((0 : ℚ), (0 : ℚ))) = true
    ∧ (List.replicate 80 ((0 : ℚ), (0 : ℚ))).length = 80
    ∧ ∃ k, k ≤ 80
        ∧ (bondRun true ⟨false, 0⟩
            ((List.replicate 80 ((0 : ℚ), (0 : ℚ))).take k)).isConnected = true :=
  ⟨by decide, by decide,
    bond_reconnect_within_80 true (List.replicate 80 ((0 : ℚ), (0 : ℚ)))
      (by decide) (by decide)⟩

/-- Membership in the connection sets after one `addLink`. -/
theorem mem_addLink (c : ℕ → Finset ℕ) (a b x y : ℕ) :
    x ∈ addLink c a b y ↔ (y = a ∧ x = b) ∨ (y = b ∧ x = a) ∨ x ∈ c y := by
  unfold addLink
  by_cases hya : y = a
  · rw [if_pos hya]
    simp only [Finset.mem_insert]
    constructor
    · rintro (rfl | hx)
      · exact Or.inl ⟨hya, rfl⟩
      · exact Or.inr (Or.inr hx)
    · rintro (⟨-, rfl⟩ | ⟨hyb, rfl⟩ | hx)
      · exact Or.inl rfl
      · exact Or.inl (hya.symm.trans hyb)
      · exact Or.inr hx
  · rw [if_neg hya]
    by_cases hyb : y = b
    · rw [if_pos hyb]
      simp only [Finset.mem_insert]
      constructor
      · rintro (rfl | hx)
        · exact Or.inr (Or.inl ⟨hyb, rfl⟩)
        · exact Or.inr (Or.inr hx)
      · rintro (⟨hya', -⟩ | ⟨-, rfl⟩ | hx)
        · exact absurd hya' hya
        · exact Or.inl rfl
        · exact Or.inr hx
    · rw [if_neg hyb]
      constructor
      · exact fun hx => Or.inr (Or.inr hx)
      · rintro (⟨hya', -⟩ | ⟨hyb', -⟩ | hx)
        · exact absurd hya' hya
        · exact absurd hyb' hyb
        · exact hx

/-- `addLink` preserves symmetry of the connection relation. -/
theorem addLink_symm (c : ℕ → Finset ℕ) (hc : ∀ x y, x ∈ c y ↔ y ∈ c x)
    (a b x y : ℕ) : x ∈ addLink c a b y ↔ y ∈ addLink c a b x := by
  rw [mem_addLink, mem_addLink, hc x y]
  tauto

/-- Folding the gated link step over any pair list preserves symmetry. -/
theorem foldl_linkStep_symm (ps : List BackbonePoint) (r : ℕ → ℕ → ℚ) :
    ∀ (L : List (ℕ × ℕ)) (c : ℕ → Finset ℕ),
      (∀ x y, x ∈ c y ↔ y ∈ c x) →
      ∀ x y, x ∈ L.foldl (linkStep ps r) c y ↔ y ∈ L.foldl (linkStep ps r) c x := by
  intro L
  induction L with
  | nil => intro c hc x y; exact hc x y
  | cons p L ih =>
    intro c hc x y
    rw [List.foldl_cons]
    refine ih (linkStep ps r c p) ?_ x y
    intro x' y'
    unfold linkStep
    by_cases hg : linkGate ps r p.1 p.2
    · rw [if_pos hg]
      exact addLink_symm c hc p.1 p.2 x' y'
    · rw [if_neg hg]
      exact hc x' y'

/-- C9: after the short-range link pass over the depth-sorted point array,
the recorded connection relation is symmetric — `x` is in point `y`'s
connection set exactly when `y` is in point `x`'s, since the pass inserts
both endpoints of every gated pair. -/
theorem linkPass_symmetric (ps : List BackbonePoint) (r : ℕ → ℕ → ℚ) (x y : ℕ) :
    x ∈ linkPass ps r y ↔ y ∈ linkPass ps r x := by
  unfold linkPass
  exact foldl_linkStep_symm ps r (allPairs ps.length)
    (fun _ => (∅ : Finset ℕ)) (by simp) x y

theorem frameInterval_pos : (0 : ℚ) < frameInterval := by
  norm_num [frameInterval]

/-- Floor of `(m * I + x) / I` for a remainder `x` within `[0, I)`. -/
theorem floor_mul_add (m : ℕ) (x : ℚ) (h0 : 0 ≤ x) (h1 : x < frameInterval) :
    ⌊((m : ℚ) * frameInterval + x) / frameInterval⌋ = m := by
  have hI := frameInterval_pos
  rw [Int.floor_eq_iff]
  constructor
  · rw [le_div_iff₀ hI]
    push_cast
    nlinarith
  · rw [div_lt_iff₀ hI]
    push_cast
    nlinarith

/-- A delta of at least one but less than two intervals has floor quotient 1. -/
theorem floor_delta_one (delta : ℚ) (h1 : frameInterval ≤ delta)
    (h2 : delta < 2 * frameInterval) : ⌊delta / frameInterval⌋ = 1 := by
  have h := floor_mul_add 1 (delta - frameInterval) (by linarith) (by linarith)
  have heq : ((1 : ℕ) : ℚ) * frameInterval + (delta - frameInterval) = delta := by
    push_cast
    ring
  rw [heq] at h
  simpa using h

/-- A callback below the target interval leaves the scheduler state alone. -/
theorem schedStep_skip (L : ℚ) (k : ℕ) (t : ℚ) (hL : L ≠ 0)
    (hlt : t - L < frameInterval) : schedStep ⟨L, k⟩ t = ⟨L, k⟩ := by
  unfold schedStep
  dsimp only
  rw [if_neg hL, if_neg (not_le.mpr hlt)]

/-- A callback at or past the target interval (but within two of them)
fires one frame and advances `lastFrameTime` by exactly one interval. -/
theorem schedStep_fire (L : ℚ) (k : ℕ) (t : ℚ) (hL : L ≠ 0)
    (h1 : frameInterval ≤ t - L) (h2 : t - L < 2 * frameInterval) :
    schedStep ⟨L, k⟩ t = ⟨L + frameInterval, k + 1⟩ := by
  unfold schedStep
  dsimp only
  rw [if_neg hL, if_pos h1, floor_delta_one (t - L) h1 h2]
  congr 1
  push_cast
  ring

/-- Invariant run of the scheduler: starting from an initialised
`lastFrameTime = L > 0` with the previous timestamp `prev` within one
interval of `L`, a gap-valid callback sequence keeps the carried remainder
below one interval at every step, fires exactly `m` frames, and leaves
`lastFrameTime = L + m * frameInterval` within one interval below the
final timestamp. -/
theorem sched_go (ts : List ℚ) :
    ∀ (L prev : ℚ) (k : ℕ), 0 < L → L ≤ prev → prev - L < frameInterval →
      gapsOk prev ts = true →
      remainderOkFrom ⟨L, k⟩ ts = true ∧
      ∃ m : ℕ, ts.foldl schedStep ⟨L, k⟩ = ⟨L + (m : ℚ) * frameInterval, k + m⟩ ∧
        0 ≤ (prev :: ts).getLast (List.cons_ne_nil _ _)
          - (L + (m : ℚ) * frameInterval) ∧
        (prev :: ts).getLast (List.cons_ne_nil _ _)
          - (L + (m : ℚ) * frameInterval) < frameInterval := by
  induction ts with
  | nil =>
    intro L prev k hL hLp hpI _
    refine ⟨rfl, 0, ?_, ?_, ?_⟩
    · simp only [List.foldl_nil]
      congr 1
      push_cast
      ring
    · simp only [List.getLast_singleton]
      push_cast
      linarith
    · simp only [List.getLast_singleton]
      push_cast
      linarith
  | cons t ts ih =>
    intro L prev k hL hLp hpI hg
    have hg' : prev < t ∧ t < prev + frameInterval ∧ gapsOk t ts = true := by
      simpa [gapsOk, Bool.and_eq_true, decide_eq_true_eq, and_assoc] using hg
    obtain ⟨hpt, htI, hgt⟩ := hg'
    by_cases hfire : frameInterval ≤ t - L
    · have h2 : t - L < 2 * frameInterval := by linarith
      have hstep := schedStep_fire L k t hL.ne' hfire h2
      have hrec := ih (L + frameInterval) t (k + 1)
        (by linarith [frameInterval_pos]) (by linarith) (by linarith) hgt
      obtain ⟨hrem, m, hfold, hb0, hb1⟩ := hrec
      refine ⟨?_, m + 1, ?_, ?_, ?_⟩
      · simp only [remainderOkFrom, hstep, Bool.and_eq_true, decide_eq_true_eq]
        exact ⟨by linarith, hrem⟩
      · rw [List.foldl_cons, hstep, hfold]
        congr 1
        · push_cast
          ring
        · omega
      · rw [List.getLast_cons (List.cons_ne_nil _ _)]
        push_cast
        linarith
      · rw [List.getLast_cons (List.cons_ne_nil _ _)]
        push_cast
        linarith
    · have hlt : t - L < frameInterval := not_le.mp hfire
      have hstep := schedStep_skip L k t hL.ne' hlt
      have hrec := ih L t k hL (by linarith) (by linarith) hgt
      obtain ⟨hrem, m, hfold, hb0, hb1⟩ := hrec
      refine ⟨?_, m, ?_, ?_, ?_⟩
      · simp only [remainderOkFrom, hstep, Bool.and_eq_true, decide_eq_true_eq]
        exact ⟨by linarith, hrem⟩
      · rw [List.foldl_cons, hstep]
        exact hfold
      · rw [List.getLast_cons (List.cons_ne_nil _ _)]
        exact hb0
      · rw [List.getLast_cons (List.cons_ne_nil _ _)]
        exact hb1

/-- C3: for any nonnegative first timestamp and successive gaps below the
target interval, the carried remainder stays below one interval after
every processed callback, and the number of logical frames over the span
`D` (last timestamp minus first) is within 1 of `⌊D / frameInterval⌋`
(the scheduler in fact achieves exact equality once initialised at a
positive timestamp). -/
theorem scheduler_frames_bounded (t0 : ℚ) (ts : List ℚ)
    (h0 : 0 ≤ t0) (hg : gapsOk t0 ts = true) :
    remainderOkFrom ⟨0, 0⟩ (t0 :: ts) = true
    ∧ |((schedRun (t0 :: ts)).frames : ℤ)
        - ⌊((t0 :: ts).getLast (List.cons_ne_nil _ _) - t0) / frameInterval⌋| ≤ 1 := by
  have hI := frameInterval_pos
  have hinit : schedStep ⟨0, 0⟩ t0 = ⟨t0, 0⟩ := by
    unfold schedStep
    rw [if_pos rfl]
  rcases lt_or_eq_of_le h0 with hpos | hzero
  · have hrec := sched_go ts t0 t0 0 hpos le_rfl (by simpa using hI) hg
    obtain ⟨hrem, m, hfold, hb0, hb1⟩ := hrec
    constructor
    · simp only [remainderOkFrom, hinit, Bool.and_eq_true, decide_eq_true_eq]
      exact ⟨by simpa using hI, hrem⟩
    · have hfr : (schedRun (t0 :: ts)).frames = m := by
        unfold schedRun
        rw [List.foldl_cons, hinit, hfold]
        simp
      have hfl : ⌊((t0 :: ts).getLast (List.cons_ne_nil _ _) - t0) / frameInterval⌋
          = m := by
        have heq : (t0 :: ts).getLast (List.cons_ne_nil _ _) - t0
            = (m : ℚ) * frameInterval
              + ((t0 :: ts).getLast (List.cons_ne_nil _ _)
                - (t0 + (m : ℚ) * frameInterval)) := by ring
        rw [heq]
        exact floor_mul_add m _ hb0 hb1
      rw [hfr, hfl]
      simp
  · rcases ts with _ | ⟨t1, rest⟩
    · subst hzero
      constructor
      · simp [remainderOkFrom, hinit, hI]
      · have hfr : schedRun [(0 : ℚ)] = ⟨0, 0⟩ := by
          unfold schedRun
          rw [List.foldl_cons, hinit, List.foldl_nil]
        rw [hfr]
        simp
    · subst hzero
      have hg' : (0 : ℚ) < t1 ∧ t1 < 0 + frameInterval ∧ gapsOk t1 rest = true := by
        simpa [gapsOk, Bool.and_eq_true, decide_eq_true_eq, and_assoc] using hg
      obtain ⟨ht1, ht1I, hgrest⟩ := hg'
      have hinit1 : schedStep ⟨0, 0⟩ t1 = ⟨t1, 0⟩ := by
        unfold schedStep
        rw [if_pos rfl]
      have hrec := sched_go rest t1 t1 0 ht1 le_rfl (by simpa using hI) hgrest
      obtain ⟨hrem, m, hfold, hb0, hb1⟩ := hrec
      constructor
      · simp only [remainderOkFrom, hinit, hinit1, Bool.and_eq_true, decide_eq_true_eq]
        exact ⟨by simpa using hI, by simpa using hI, hrem⟩
      · have hfr : (schedRun ((0 : ℚ) :: t1 :: rest)).frames = m := by
          unfold schedRun
          rw [List.foldl_cons, hinit, List.foldl_cons, hinit1, hfold]
          simp
        have hgl : ((0 : ℚ) :: t1 :: rest).getLast (List.cons_ne_nil _ _)
            = (t1 :: rest).getLast (List.cons_ne_nil _ _) :=
          List.getLast_cons (List.cons_ne_nil _ _)
        rw [hfr, hgl]
        by_cases hcase : t1 + ((t1 :: rest).getLast (List.cons_ne_nil _ _)
            - (t1 + (m : ℚ) * frameInterval)) < frameInterval
        · have hfl : ⌊((t1 :: rest).getLast (List.cons_ne_nil _ _) - 0)
              / frameInterval⌋ = m := by
            have heq : (t1 :: rest).getLast (List.cons_ne_nil _ _) - 0
                = (m : ℚ) * frameInterval
                  + (t1 + ((t1 :: rest).getLast (List.cons_ne_nil _ _)
                    - (t1 + (m : ℚ) * frameInterval))) := by ring
            rw [heq]
            exact floor_mul_add m _ (by linarith) hcase
          rw [hfl]
          simp
        · have hfl : ⌊((t1 :: rest).getLast (List.cons_ne_nil _ _) - 0)
              / frameInterval⌋ = (m + 1 : ℕ) := by
            have heq : (t1 :: rest).getLast (List.cons_ne_nil _ _) - 0
                = ((m + 1 : ℕ) : ℚ) * frameInterval
                  + (t1 + ((t1 :: rest).getLast (List.cons_ne_nil _ _)
                    - (t1 + (m : ℚ) * frameInterval)) - frameInterval) := by
              push_cast
              ring
            rw [heq]
            exact floor_mul_add (m + 1) _ (by linarith [not_lt.mp hcase]) (by linarith)
          rw [hfl]
          push_cast
          rw [show (m : ℤ) - ((m : ℤ) + 1) = -1 by ring]
          norm_num

/-- Witness for C3 at the concrete timestamps 10, 30, 50 (gaps of 20 ms,
below the 100/3 ms target interval). -/
theorem scheduler_frames_bounded_witness :
    (0 : ℚ) ≤ 10 ∧ gapsOk 10 [30, 50] = true
    ∧ (remainderOkFrom ⟨0, 0⟩ ((10 : ℚ) :: [30, 50]) = true
      ∧ |((schedRun ((10 : ℚ) :: [30, 50])).frames : ℤ)
          - ⌊(((10 : ℚ) :: [30, 50]).getLast (List.cons_ne_nil _ _) - 10)
            / frameInterval⌋| ≤ 1) :=
  ⟨by norm_num, by norm_num [gapsOk, frameInterval],
    scheduler_frames_bounded 10 [30, 50] (by norm_num)
      (by norm_num [gapsOk, frameInterval])⟩

end IdleScreen
